import Mathlib

/-!
Shallow embedding of `src/main.rs` of the android_file_transfer program.

The program has four parts: a device locator (`device_is_connected`), a
durable dedup ledger (`load_transferred_files` / `save_transferred_files` /
`append_lines_to_file`), a transfer pass (`transfer_files`) and the
orchestrating `main` loop.

Modelling conventions:
* Rust `String`/`&str` values manipulated by byte offset are modelled as
  `List Char` (enumeration lines are ASCII in the nominal format, so byte
  offsets and character offsets coincide); paths handled atomically are
  modelled as Lean `String`.
* A Rust slice `&line[a..b]` panics when `b` exceeds the length (or `a > b`);
  this fallibility is modelled by `sliceOpt` returning `Option`.
* `panic!`/`unwrap`/`expect` aborts are modelled as a distinguished
  `panicked` outcome, distinct from a `Result::Err` propagated with `?`.
* The filesystem and clock are modelled as explicit state: the ledger file's
  lines, the activity-log file's lines, whether the destination directory
  exists, whether `fs::create_dir` would succeed, and the result of
  `fs::read_dir` on the source directory (`none` = listing error; each entry
  is `Option String`, `none` = per-entry error whose `unwrap` panics).
* The `gvfs-copy` collaborator is fire-and-forget in the source; a launch is
  recorded as a (source, destination) pair and never awaited.
-/

/-- isPrefixSeq pat s : pat occurs at the start of s (Rust str pattern match
at one position). -/
def isPrefixSeq : List Char → List Char → Bool
  | [], _ => true
  | _ :: _, [] => false
  | a :: as, b :: bs => a == b && isPrefixSeq as bs

/-- containsSeq s pat : Rust `str::contains` — pat occurs as a contiguous
subsequence of s. -/
def containsSeq : List Char → List Char → Bool
  | [], pat => pat.isEmpty
  | c :: rest, pat => isPrefixSeq pat (c :: rest) || containsSeq rest pat

/-- sliceOpt s a b : Rust `&s[a..b]`. `none` models the panic when the range
is out of bounds (char-boundary panics are not representable at the
`List Char` level). -/
def sliceOpt (s : List Char) (a b : Nat) : Option (List Char) :=
  if a ≤ b ∧ b ≤ s.length then some (List.take (b - a) (List.drop a s)) else none

/-- replaceAllFuel pat repl fuel s : auxiliary scan for `replaceAll`.
The fuel argument makes the recursion structural; each step consumes at
least one character of s, so fuel = s.length always suffices. -/
def replaceAllFuel (pat repl : List Char) : Nat → List Char → List Char
  | _, [] => []
  | 0, s => s
  | fuel + 1, c :: rest =>
    if pat ≠ [] ∧ isPrefixSeq pat (c :: rest) then
      repl ++ replaceAllFuel pat repl fuel (List.drop (pat.length - 1) rest)
    else
      c :: replaceAllFuel pat repl fuel rest

/-- replaceAll pat repl s : Rust `str::replace` — replace every
non-overlapping occurrence of pat in s by repl, scanning left to right. -/
def replaceAll (pat repl s : List Char) : List Char :=
  replaceAllFuel pat repl s.length s

/-- The `__BUS__` placeholder of the source-directory template. -/
def busPlaceholder : List Char := "__BUS__".toList

/-- The `__DEVICE__` placeholder of the source-directory template. -/
def devicePlaceholder : List Char := "__DEVICE__".toList

/-- SOURCE_DIR_TEMPLATE constant from main.rs. -/
def SOURCE_DIR_TEMPLATE : List Char :=
  "/run/user/1000/gvfs/mtp:host=%5Busb%3A__BUS__%2C__DEVICE__%5D/Phone/DCIM/Camera".toList

/-- The mount-path candidate the locator builds from a matching line:
`str::replace` of `__BUS__` by `line[4..7]` and then of `__DEVICE__` by
`line[15..18]` (well-defined only when the slices are in bounds; the
extraction itself is `buildSourceDir`). -/
def candidateOf (template line : List Char) : List Char :=
  replaceAll devicePlaceholder (List.take 3 (List.drop 15 line))
    (replaceAll busPlaceholder (List.take 3 (List.drop 4 line)) template)

/-- The fixed-offset extraction and substitution of `device_is_connected`
(main.rs lines 173-177): slice bytes 4..7 and 15..18 of the line, substitute
into the template. `none` models the slicing panic on a too-short line. -/
def buildSourceDir (template line : List Char) : Option (List Char) :=
  match sliceOpt line 4 7, sliceOpt line 15 18 with
  | some bus, some dev =>
      some (replaceAll devicePlaceholder dev (replaceAll busPlaceholder bus template))
  | _, _ => none

/-- Outcome of one `device_is_connected` call: `found` = `Some(source_dir)`,
`notFound` = `None`, `panicked` = slice-out-of-bounds abort. -/
inductive LocateResult where
  | found : List Char → LocateResult
  | notFound : LocateResult
  | panicked : LocateResult
deriving DecidableEq, Repr

/-- device_is_connected (main.rs lines 159-189), abstracted over the `lsusb`
output lines and over `path_exists`. It scans the lines for the first one
containing deviceName; on that line it slices the bus and device tokens at
fixed offsets, substitutes them into the template, and returns the candidate
if it exists on the filesystem, else breaks out of the loop and returns
`None` without examining later lines. -/
def device_is_connected (pathExists : List Char → Bool)
    (deviceName template : List Char) : List (List Char) → LocateResult
  | [] => .notFound
  | line :: rest =>
    if containsSeq line deviceName then
      match buildSourceDir template line with
      | some dir => if pathExists dir then .found dir else .notFound
      | none => .panicked
    else device_is_connected pathExists deviceName template rest

/-- The sample enumeration line from the spec. -/
def sampleLine : List Char :=
  "Bus 003 Device 026: ID 04e8:6860 Samsung Electronics Co., Ltd Galaxy (MTP)".toList

/-! ## The transfer ledger and the transfer pass -/

/-- charLtb a b : comparison of two characters by code point, the order
Rust uses on `char` and (through UTF-8 bytes) on `String`. -/
def charLtb (a b : Char) : Bool := decide (a.toNat < b.toNat)

/-- listCharLtb a b : lexicographic strict order on character lists; at the
first differing position the code points decide, and a proper prefix is
smaller.  This is Rust's `Ord` on `String` (byte-lexicographic order on
valid UTF-8 agrees with code-point-lexicographic order). -/
def listCharLtb : List Char → List Char → Bool
  | [], [] => false
  | [], _ :: _ => true
  | _ :: _, [] => false
  | a :: as, b :: bs => if a = b then listCharLtb as bs else charLtb a b

/-- strLt a b : Rust's `Ord` on `String`, the order of `BTreeSet<String>`. -/
def strLt (a b : String) : Bool := listCharLtb a.toList b.toList

/-- btreeInsert x l : insertion into Rust's `BTreeSet<String>`, modelled as
a list kept sorted strictly ascending by `strLt` (no duplicates).
Iteration over the set is iteration over this list, which matches
`BTreeSet`'s sorted iteration order. -/
def btreeInsert (x : String) : List String → List String
  | [] => [x]
  | y :: ys =>
    if strLt x y then x :: y :: ys
    else if x = y then y :: ys
    else y :: btreeInsert x ys

/-- load_transferred_files (main.rs lines 36-51): read the ledger file's
lines one by one into a `BTreeSet`.  The open-with-create and per-line
`unwrap`s are modelled as succeeding; the file's lines are the input. -/
def load_transferred_files (ledgerLines : List String) : List String :=
  ledgerLines.foldl (fun s l => btreeInsert l s) []

/-- The destination path computed for a directory entry
(main.rs line 113): `format!("{}/{}", destination_dir, entry.file_name())`. -/
def destPathOf (destDir name : String) : String := destDir ++ "/" ++ name

/-- The source path of a directory entry (main.rs line 121):
`entry.path()`, i.e. the source directory joined with the entry name. -/
def sourcePathOf (sourceDir name : String) : String := sourceDir ++ "/" ++ name

/-- The line log_action (main.rs lines 80-91) appends to LOG_FILE, with the
clock reading passed in explicitly. -/
def logActionLine (now : String) (count : Nat) : String :=
  now ++ " transferred files: " ++ toString count

/-- Filesystem-and-files state visible to one transfer pass.
`sourceListing` is the result of `fs::read_dir` on the source directory:
`none` = the listing itself fails (the `?` on line 111 propagates an Err);
an inner `none` = that entry's per-entry read fails (the `unwrap` on
line 112 panics). -/
structure FsState where
  ledgerLines : List String
  logLines : List String
  destDirExists : Bool
  createDirOk : Bool
  sourceListing : Option (List (Option String))
deriving DecidableEq, Repr

/-- Result data of a completed (Ok) transfer pass: the final file state,
the copy launches performed (source path, destination path), the pass's
new-file `BTreeSet` (as its sorted iteration list) and the pass counter. -/
structure PassOutput where
  st : FsState
  copies : List (String × String)
  newFiles : List String
  count : Nat
deriving DecidableEq, Repr

/-- Outcome of one transfer_files call: `ok` = `Ok(())`, `err` = an
`Err` propagated to main via `?`, `panicked` = an `unwrap`/`expect` abort.
`err` and `panicked` carry the file state at the failure point (the ledger
and log are only written after the loop, so they are unchanged there). -/
inductive PassResult where
  | ok : PassOutput → PassResult
  | err : FsState → PassResult
  | panicked : FsState → PassResult
deriving DecidableEq, Repr

/-- The entry loop of transfer_files (main.rs lines 111-144): for each
directory entry, compute the destination path; skip it when it is already
in the previously-transferred set; otherwise launch a copy, insert the
destination into the pass's new-file set and bump the counter.  A `none`
entry makes the `unwrap` on line 112 panic (`none` result). -/
def transferLoop (prev : List String) (sourceDir destDir : String) :
    List (Option String) → List (String × String) → List String → Nat →
    Option (List (String × String) × List String × Nat)
  | [], copies, newFiles, count => some (copies, newFiles, count)
  | none :: _, _, _, _ => none
  | some name :: rest, copies, newFiles, count =>
    let dest := destPathOf destDir name
    if dest ∈ prev then
      transferLoop prev sourceDir destDir rest copies newFiles count
    else
      transferLoop prev sourceDir destDir rest
        (copies ++ [(sourcePathOf sourceDir name, dest)])
        (btreeInsert dest newFiles) (count + 1)

/-- transfer_files (main.rs lines 93-157).  Loads the ledger, creates the
destination directory when absent (`unwrap` panic when creation fails),
lists the source directory (`?` error when that fails), runs the entry
loop, and — only when at least one file was processed — appends the
new-file set to the ledger file in set-iteration order
(save_transferred_files, lines 69-78, via append_lines_to_file, lines
53-67) and appends one line to the activity log (log_action).
In the source the ledger load (line 100) precedes the create-dir check
(line 104); the load is modelled as pure, so evaluating it inside each
branch is equivalent. -/
def transfer_files (st : FsState) (sourceDir destDir now : String) : PassResult :=
  if st.destDirExists || st.createDirOk then
    match st.sourceListing with
    | none => .err { st with destDirExists := true }
    | some entries =>
      match transferLoop (load_transferred_files st.ledgerLines)
          sourceDir destDir entries [] [] 0 with
      | none => .panicked { st with destDirExists := true }
      | some (copies, newFiles, count) =>
        if 0 < count then
          .ok { st := { st with
                          destDirExists := true,
                          ledgerLines := st.ledgerLines ++ newFiles,
                          logLines := st.logLines ++ [logActionLine now count] },
                copies := copies, newFiles := newFiles, count := count }
        else
          .ok { st := { st with destDirExists := true },
                copies := copies, newFiles := newFiles, count := count }
  else .panicked st

/-- How main (main.rs lines 205-208) reacts to a transfer pass: both `Ok`
and `Err` are logged and fall through to the wait-for-disconnect loop; a
panic aborts the process. -/
inductive OrchAction where
  | waitDisconnect : OrchAction
  | crash : OrchAction
deriving DecidableEq, Repr

/-- Orchestrator reaction to one pass result (main.rs lines 205-208). -/
def orchestrate : PassResult → OrchAction
  | .ok _ => .waitDisconnect
  | .err _ => .waitDisconnect
  | .panicked _ => .crash

/-- Per-pass inputs that vary across a sequence of passes. -/
structure PassInput where
  sourceDir : String
  destDir : String
  now : String
  createDirOk : Bool
  sourceListing : Option (List (Option String))
deriving DecidableEq, Repr

/-- A sequence of transfer passes as main's loop performs them: each pass
sees the file state left by the previous one (with the per-pass filesystem
inputs swapped in); a panic stops the process with the state frozen. -/
def runPasses (st : FsState) : List PassInput → FsState
  | [] => st
  | i :: is =>
    match transfer_files
        { st with createDirOk := i.createDirOk, sourceListing := i.sourceListing }
        i.sourceDir i.destDir i.now with
    | .ok out => runPasses out.st is
    | .err st2 => runPasses st2 is
    | .panicked st2 => st2

/-! ## Concrete states used as witness inputs -/

/-- The ledger file's lines after a pass outcome (on an Err or a panic the
ledger was not yet written, so the carried state holds its lines). -/
def ledgerAfter : PassResult → List String
  | .ok out => out.st.ledgerLines
  | .err st2 => st2.ledgerLines
  | .panicked st2 => st2.ledgerLines

def stC7 : FsState :=
  { ledgerLines := [], logLines := [], destDirExists := false,
    createDirOk := false, sourceListing := some [some "photo.jpg"] }

def stC8 : FsState :=
  { ledgerLines := [], logLines := [], destDirExists := true,
    createDirOk := true, sourceListing := some [none] }

def shortLine : List Char := "a Samsung".toList

def stC1 : FsState :=
  { ledgerLines := ["d/a"], logLines := [], destDirExists := true,
    createDirOk := true, sourceListing := some [some "a", some "b"] }

def outC1 : PassOutput :=
  { st := { ledgerLines := ["d/a", "d/b"], logLines := ["t transferred files: 1"],
            destDirExists := true, createDirOk := true,
            sourceListing := some [some "a", some "b"] },
    copies := [("s/b", "d/b")], newFiles := ["d/b"], count := 1 }

def stC2 : FsState :=
  { ledgerLines := [], logLines := [], destDirExists := true,
    createDirOk := true, sourceListing := some [some "x.jpg"] }

def outC2 : PassOutput :=
  { st := { ledgerLines := ["d/x.jpg"], logLines := ["t transferred files: 1"],
            destDirExists := true, createDirOk := true,
            sourceListing := some [some "x.jpg"] },
    copies := [("s/x.jpg", "d/x.jpg")], newFiles := ["d/x.jpg"], count := 1 }

def stC3 : FsState :=
  { ledgerLines := ["d/a"], logLines := [], destDirExists := true,
    createDirOk := true, sourceListing := none }

def inputsC3 : List PassInput :=
  [{ sourceDir := "s", destDir := "d", now := "t", createDirOk := true,
     sourceListing := some [some "b"] },
   { sourceDir := "s", destDir := "d", now := "t2", createDirOk := true,
     sourceListing := none }]

def preC5 : List (List Char) :=
  ["Bus 001 Device 002: ID 1d6b:0002 Linux Foundation 2.0 root hub".toList]

def postC5 : List (List Char) :=
  ["Bus 003 Device 027: ID 04e8:6860 Samsung Electronics Co., Ltd Galaxy (MTP)".toList]

def stC6 : FsState :=
  { ledgerLines := ["d/a"], logLines := ["old entry"], destDirExists := true,
    createDirOk := true, sourceListing := some [some "a"] }

def outC6 : PassOutput :=
  { st := stC6, copies := [], newFiles := [], count := 0 }

def entriesC10 : List (Option String) := [some "b", some "a"]

def stC10 : FsState :=
  { ledgerLines := [], logLines := [], destDirExists := true,
    createDirOk := true, sourceListing := some entriesC10 }

def outC10 : PassOutput :=
  { st := { ledgerLines := ["d/a", "d/b"], logLines := ["t transferred files: 2"],
            destDirExists := true, createDirOk := true,
            sourceListing := some entriesC10 },
    copies := [("s/b", "d/b"), ("s/a", "d/a")], newFiles := ["d/a", "d/b"], count := 2 }

/-! ## Lemmas about the BTreeSet model -/

theorem charLtb_trans {a b c : Char} (h1 : charLtb a b = true)
    (h2 : charLtb b c = true) : charLtb a c = true := by
  simp only [charLtb, decide_eq_true_eq] at *
  omega

theorem char_eq_of_toNat_eq {a b : Char} (h : a.toNat = b.toNat) : a = b := by
  apply Char.eq_of_val_eq
  apply UInt32.eq_of_toBitVec_eq
  apply BitVec.eq_of_toNat_eq
  exact h

theorem charLtb_total_of_ne {a b : Char} (h : charLtb a b = false) (hne : a ≠ b) :
    charLtb b a = true := by
  simp only [charLtb, decide_eq_true_eq, decide_eq_false_iff_not, Nat.not_lt] at *
  rcases Nat.lt_or_ge b.toNat a.toNat with hlt | hge
  · exact hlt
  · exact absurd (char_eq_of_toNat_eq (Nat.le_antisymm hge h)) hne

theorem charLtb_ne {a b : Char} (h : charLtb a b = true) : a ≠ b := by
  intro heq
  subst heq
  simp [charLtb] at h

theorem listCharLtb_irrefl : ∀ l : List Char, listCharLtb l l = false
  | [] => rfl
  | _ :: as => by simp [listCharLtb, listCharLtb_irrefl as]

theorem listCharLtb_trans : ∀ {a b c : List Char}, listCharLtb a b = true →
    listCharLtb b c = true → listCharLtb a c = true
  | [], [], _, h1, _ => by simp [listCharLtb] at h1
  | [], _ :: _, [], _, h2 => by simp [listCharLtb] at h2
  | [], _ :: _, _ :: _, _, _ => rfl
  | _ :: _, [], _, h1, _ => by simp [listCharLtb] at h1
  | _ :: _, _ :: _, [], _, h2 => by simp [listCharLtb] at h2
  | x :: as, y :: bs, z :: cs, h1, h2 => by
    simp only [listCharLtb] at h1 h2 ⊢
    by_cases hxy : x = y
    · subst hxy
      rw [if_pos rfl] at h1
      by_cases hxz : x = z
      · subst hxz
        rw [if_pos rfl] at h2 ⊢
        exact listCharLtb_trans h1 h2
      · rw [if_neg hxz] at h2 ⊢
        exact h2
    · rw [if_neg hxy] at h1
      by_cases hyz : y = z
      · subst hyz
        rw [if_neg hxy]
        exact h1
      · rw [if_neg hyz] at h2
        have hxz : charLtb x z = true := charLtb_trans h1 h2
        rw [if_neg (charLtb_ne hxz)]
        exact hxz

theorem listCharLtb_total_of_ne : ∀ {a b : List Char}, listCharLtb a b = false →
    a ≠ b → listCharLtb b a = true
  | [], [], _, hne => absurd rfl hne
  | [], _ :: _, h, _ => by simp [listCharLtb] at h
  | _ :: _, [], _, _ => rfl
  | x :: as, y :: bs, h, hne => by
    simp only [listCharLtb] at h ⊢
    by_cases hxy : x = y
    · subst hxy
      rw [if_pos rfl] at h
      rw [if_pos rfl]
      have hab : as ≠ bs := by
        intro heq
        exact hne (by rw [heq])
      exact listCharLtb_total_of_ne h hab
    · rw [if_neg hxy] at h
      rw [if_neg (fun heq => hxy heq.symm)]
      exact charLtb_total_of_ne h hxy

theorem string_toList_inj {a b : String} (h : a.toList = b.toList) : a = b :=
  String.ext h

theorem strLt_trans {a b c : String} (h1 : strLt a b = true) (h2 : strLt b c = true) :
    strLt a c = true := listCharLtb_trans h1 h2

theorem strLt_total_of_ne {a b : String} (h : strLt a b = false) (hne : a ≠ b) :
    strLt b a = true :=
  listCharLtb_total_of_ne h (fun heq => hne (string_toList_inj heq))

theorem strLt_ne {a b : String} (h : strLt a b = true) : a ≠ b := by
  intro heq
  subst heq
  rw [strLt, listCharLtb_irrefl] at h
  exact Bool.noConfusion h

theorem mem_btreeInsert (x a : String) (l : List String) :
    a ∈ btreeInsert x l ↔ a = x ∨ a ∈ l := by
  induction l with
  | nil => simp [btreeInsert]
  | cons y ys ih =>
    simp only [btreeInsert]
    split
    · simp [or_assoc]
    · split
      · next heq => subst heq; simp only [List.mem_cons]; tauto
      · simp only [List.mem_cons, ih]; tauto

theorem self_mem_btreeInsert (x : String) (l : List String) :
    x ∈ btreeInsert x l := (mem_btreeInsert x x l).mpr (Or.inl rfl)

theorem mem_btreeInsert_of_mem (x a : String) (l : List String)
    (h : a ∈ l) : a ∈ btreeInsert x l := (mem_btreeInsert x a l).mpr (Or.inr h)

theorem pairwise_btreeInsert (x : String) (l : List String)
    (h : l.Pairwise (fun a b => strLt a b = true)) :
    (btreeInsert x l).Pairwise (fun a b => strLt a b = true) := by
  induction l with
  | nil => simp [btreeInsert]
  | cons y ys ih =>
    rw [List.pairwise_cons] at h
    obtain ⟨hy, hys⟩ := h
    simp only [btreeInsert]
    split
    · next hlt =>
      refine List.Pairwise.cons ?_ (List.Pairwise.cons hy hys)
      intro b hb
      rcases List.mem_cons.mp hb with rfl | hb2
      · exact hlt
      · exact strLt_trans hlt (hy b hb2)
    · next hnlt =>
      have hnlt2 : strLt x y = false := Bool.eq_false_iff.mpr hnlt
      split
      · exact List.Pairwise.cons hy hys
      · next hne =>
        have hyx : strLt y x = true := strLt_total_of_ne hnlt2 hne
        refine List.Pairwise.cons ?_ (ih hys)
        intro b hb
        rcases (mem_btreeInsert x b ys).mp hb with rfl | hb2
        · exact hyx
        · exact hy b hb2

theorem length_btreeInsert_of_not_mem (x : String) (l : List String)
    (h : x ∉ l) : (btreeInsert x l).length = l.length + 1 := by
  induction l with
  | nil => simp [btreeInsert]
  | cons y ys ih =>
    simp only [btreeInsert]
    split
    · simp
    · split
      · next heq => exact absurd (heq ▸ List.mem_cons_self y ys) h
      · simp only [List.length_cons]
        rw [ih (fun hm => h (List.mem_cons_of_mem _ hm))]

theorem mem_foldl_btreeInsert (lines acc : List String) (a : String) :
    a ∈ lines.foldl (fun s l => btreeInsert l s) acc ↔ a ∈ acc ∨ a ∈ lines := by
  induction lines generalizing acc with
  | nil => simp
  | cons x xs ih =>
    simp only [List.foldl_cons, ih, mem_btreeInsert, List.mem_cons]
    tauto

theorem mem_load_transferred_files (lines : List String) (a : String) :
    a ∈ load_transferred_files lines ↔ a ∈ lines := by
  simp [load_transferred_files, mem_foldl_btreeInsert]

theorem destPathOf_inj {d n1 n2 : String} (h : destPathOf d n1 = destPathOf d n2) :
    n1 = n2 := by
  have h2 := congrArg String.data h
  rw [destPathOf, destPathOf, String.data_append, String.data_append] at h2
  exact String.ext (List.append_cancel_left h2)

/-! ## Lemmas about the entry loop -/

theorem transferLoop_not_touched (prev : List String) (s d d0 : String)
    (hd0 : d0 ∈ prev) :
    ∀ (entries : List (Option String)) (copies : List (String × String))
      (newFiles : List String) (count : Nat)
      (copies2 : List (String × String)) (newFiles2 : List String) (count2 : Nat),
      transferLoop prev s d entries copies newFiles count
          = some (copies2, newFiles2, count2) →
      (∀ c ∈ copies2, c ∈ copies ∨ c.2 ≠ d0) ∧ (d0 ∈ newFiles2 → d0 ∈ newFiles) := by
  intro entries
  induction entries with
  | nil =>
    intro copies newFiles count copies2 newFiles2 count2 h
    simp only [transferLoop, Option.some.injEq, Prod.mk.injEq] at h
    obtain ⟨h1, h2, _⟩ := h
    subst h1; subst h2
    exact ⟨fun c hc => Or.inl hc, fun hm => hm⟩
  | cons e rest ih =>
    intro copies newFiles count copies2 newFiles2 count2 h
    cases e with
    | none => simp only [transferLoop] at h; exact Option.noConfusion h
    | some name =>
      simp only [transferLoop] at h
      by_cases hmem : destPathOf d name ∈ prev
      · rw [if_pos hmem] at h
        exact ih _ _ _ _ _ _ h
      · rw [if_neg hmem] at h
        obtain ⟨ih1, ih2⟩ := ih _ _ _ _ _ _ h
        constructor
        · intro c hc
          rcases ih1 c hc with hcc | hne
          · rcases List.mem_append.mp hcc with hcc2 | hcc2
            · exact Or.inl hcc2
            · right
              have hc2 : c = (sourcePathOf s name, destPathOf d name) := by
                simpa using hcc2
              subst hc2
              intro heq
              have heq2 : destPathOf d name = d0 := heq
              exact hmem (heq2 ▸ hd0)
          · exact Or.inr hne
        · intro hm
          rcases (mem_btreeInsert _ _ _).mp (ih2 hm) with rfl | h2
          · exact absurd hd0 hmem
          · exact h2

theorem transferLoop_newFiles_mono (prev : List String) (s d : String) :
    ∀ (entries : List (Option String)) (copies : List (String × String))
      (newFiles : List String) (count : Nat)
      (copies2 : List (String × String)) (newFiles2 : List String) (count2 : Nat),
      transferLoop prev s d entries copies newFiles count
          = some (copies2, newFiles2, count2) →
      ∀ a ∈ newFiles, a ∈ newFiles2 := by
  intro entries
  induction entries with
  | nil =>
    intro copies newFiles count copies2 newFiles2 count2 h
    simp only [transferLoop, Option.some.injEq, Prod.mk.injEq] at h
    obtain ⟨_, h2, _⟩ := h
    subst h2
    exact fun a ha => ha
  | cons e rest ih =>
    intro copies newFiles count copies2 newFiles2 count2 h
    cases e with
    | none => simp only [transferLoop] at h; exact Option.noConfusion h
    | some name =>
      simp only [transferLoop] at h
      by_cases hmem : destPathOf d name ∈ prev
      · rw [if_pos hmem] at h
        exact ih _ _ _ _ _ _ h
      · rw [if_neg hmem] at h
        intro a ha
        exact ih _ _ _ _ _ _ h a (mem_btreeInsert_of_mem _ _ _ ha)

theorem transferLoop_covers (prev : List String) (s d : String) :
    ∀ (entries : List (Option String)) (copies : List (String × String))
      (newFiles : List String) (count : Nat)
      (copies2 : List (String × String)) (newFiles2 : List String) (count2 : Nat),
      transferLoop prev s d entries copies newFiles count
          = some (copies2, newFiles2, count2) →
      ∀ name, some name ∈ entries →
        destPathOf d name ∈ prev ∨ destPathOf d name ∈ newFiles2 := by
  intro entries
  induction entries with
  | nil =>
    intro copies newFiles count copies2 newFiles2 count2 h name hn
    exact absurd hn (List.not_mem_nil _)
  | cons e rest ih =>
    intro copies newFiles count copies2 newFiles2 count2 h name hn
    cases e with
    | none => simp only [transferLoop] at h; exact Option.noConfusion h
    | some ename =>
      simp only [transferLoop] at h
      rcases List.mem_cons.mp hn with heq | hrest
      · have hname : ename = name := by injection heq.symm
        subst hname
        by_cases hmem : destPathOf d ename ∈ prev
        · exact Or.inl hmem
        · rw [if_neg hmem] at h
          exact Or.inr (transferLoop_newFiles_mono prev s d _ _ _ _ _ _ _ h
            (destPathOf d ename) (self_mem_btreeInsert _ _))
      · by_cases hmem : destPathOf d ename ∈ prev
        · rw [if_pos hmem] at h
          exact ih _ _ _ _ _ _ h name hrest
        · rw [if_neg hmem] at h
          exact ih _ _ _ _ _ _ h name hrest

theorem transferLoop_all_skip (prev : List String) (s d : String) :
    ∀ (entries : List (Option String)) (copies : List (String × String))
      (newFiles : List String) (count : Nat),
      (∀ name, some name ∈ entries → destPathOf d name ∈ prev) →
      none ∉ entries →
      transferLoop prev s d entries copies newFiles count
          = some (copies, newFiles, count) := by
  intro entries
  induction entries with
  | nil =>
    intro copies newFiles count _ _
    simp [transferLoop]
  | cons e rest ih =>
    intro copies newFiles count hall hnone
    cases e with
    | none => exact absurd (List.mem_cons_self _ _) hnone
    | some name =>
      simp only [transferLoop]
      rw [if_pos (hall name (List.mem_cons_self _ _))]
      exact ih _ _ _ (fun nm hm => hall nm (List.mem_cons_of_mem _ hm))
        (fun hm => hnone (List.mem_cons_of_mem _ hm))

theorem transferLoop_none_of_bad_entry (prev : List String) (s d : String) :
    ∀ (entries : List (Option String)) (copies : List (String × String))
      (newFiles : List String) (count : Nat),
      none ∈ entries →
      transferLoop prev s d entries copies newFiles count = none := by
  intro entries
  induction entries with
  | nil =>
    intro copies newFiles count h
    exact absurd h (List.not_mem_nil _)
  | cons e rest ih =>
    intro copies newFiles count h
    cases e with
    | none => simp [transferLoop]
    | some name =>
      have hrest : none ∈ rest := by
        rcases List.mem_cons.mp h with heq | hr
        · exact absurd heq.symm (Option.some_ne_none name)
        · exact hr
      simp only [transferLoop]
      split
      · exact ih _ _ _ hrest
      · exact ih _ _ _ hrest

theorem transferLoop_count_mono (prev : List String) (s d : String) :
    ∀ (entries : List (Option String)) (copies : List (String × String))
      (newFiles : List String) (count : Nat)
      (copies2 : List (String × String)) (newFiles2 : List String) (count2 : Nat),
      transferLoop prev s d entries copies newFiles count
          = some (copies2, newFiles2, count2) →
      count ≤ count2 := by
  intro entries
  induction entries with
  | nil =>
    intro copies newFiles count copies2 newFiles2 count2 h
    simp only [transferLoop, Option.some.injEq, Prod.mk.injEq] at h
    omega
  | cons e rest ih =>
    intro copies newFiles count copies2 newFiles2 count2 h
    cases e with
    | none => simp only [transferLoop] at h; exact Option.noConfusion h
    | some name =>
      simp only [transferLoop] at h
      by_cases hmem : destPathOf d name ∈ prev
      · rw [if_pos hmem] at h
        exact ih _ _ _ _ _ _ h
      · rw [if_neg hmem] at h
        have := ih _ _ _ _ _ _ h
        omega

theorem transferLoop_count_eq (prev : List String) (s d : String) :
    ∀ (entries : List (Option String)) (copies : List (String × String))
      (newFiles : List String) (count : Nat)
      (copies2 : List (String × String)) (newFiles2 : List String) (count2 : Nat),
      transferLoop prev s d entries copies newFiles count
          = some (copies2, newFiles2, count2) →
      count2 = count →
      copies2 = copies ∧ newFiles2 = newFiles := by
  intro entries
  induction entries with
  | nil =>
    intro copies newFiles count copies2 newFiles2 count2 h _
    simp only [transferLoop, Option.some.injEq, Prod.mk.injEq] at h
    exact ⟨h.1.symm, h.2.1.symm⟩
  | cons e rest ih =>
    intro copies newFiles count copies2 newFiles2 count2 h heq
    cases e with
    | none => simp only [transferLoop] at h; exact Option.noConfusion h
    | some name =>
      simp only [transferLoop] at h
      by_cases hmem : destPathOf d name ∈ prev
      · rw [if_pos hmem] at h
        exact ih _ _ _ _ _ _ h heq
      · rw [if_neg hmem] at h
        have := transferLoop_count_mono prev s d _ _ _ _ _ _ _ h
        omega

theorem transferLoop_sorted (prev : List String) (s d : String) :
    ∀ (entries : List (Option String)) (copies : List (String × String))
      (newFiles : List String) (count : Nat)
      (copies2 : List (String × String)) (newFiles2 : List String) (count2 : Nat),
      newFiles.Pairwise (fun a b => strLt a b = true) →
      transferLoop prev s d entries copies newFiles count
          = some (copies2, newFiles2, count2) →
      newFiles2.Pairwise (fun a b => strLt a b = true) := by
  intro entries
  induction entries with
  | nil =>
    intro copies newFiles count copies2 newFiles2 count2 hs h
    simp only [transferLoop, Option.some.injEq, Prod.mk.injEq] at h
    obtain ⟨_, h2, _⟩ := h
    subst h2
    exact hs
  | cons e rest ih =>
    intro copies newFiles count copies2 newFiles2 count2 hs h
    cases e with
    | none => simp only [transferLoop] at h; exact Option.noConfusion h
    | some name =>
      simp only [transferLoop] at h
      by_cases hmem : destPathOf d name ∈ prev
      · rw [if_pos hmem] at h
        exact ih _ _ _ _ _ _ hs h
      · rw [if_neg hmem] at h
        exact ih _ _ _ _ _ _ (pairwise_btreeInsert _ _ hs) h

theorem transferLoop_length (prev : List String) (s d : String) :
    ∀ (entries : List (Option String)) (copies : List (String × String))
      (newFiles : List String) (count : Nat)
      (copies2 : List (String × String)) (newFiles2 : List String) (count2 : Nat),
      entries.Pairwise (· ≠ ·) →
      (∀ name, some name ∈ entries → destPathOf d name ∉ newFiles) →
      transferLoop prev s d entries copies newFiles count
          = some (copies2, newFiles2, count2) →
      newFiles2.length + count = newFiles.length + count2 := by
  intro entries
  induction entries with
  | nil =>
    intro copies newFiles count copies2 newFiles2 count2 _ _ h
    simp only [transferLoop, Option.some.injEq, Prod.mk.injEq] at h
    obtain ⟨_, h2, h3⟩ := h
    subst h2; subst h3
    rfl
  | cons e rest ih =>
    intro copies newFiles count copies2 newFiles2 count2 hdist hfresh h
    cases e with
    | none => simp only [transferLoop] at h; exact Option.noConfusion h
    | some name =>
      rw [List.pairwise_cons] at hdist
      obtain ⟨hhead, htail⟩ := hdist
      simp only [transferLoop] at h
      by_cases hmem : destPathOf d name ∈ prev
      · rw [if_pos hmem] at h
        exact ih _ _ _ _ _ _ htail
          (fun nm hm => hfresh nm (List.mem_cons_of_mem _ hm)) h
      · rw [if_neg hmem] at h
        have hnotmem : destPathOf d name ∉ newFiles :=
          hfresh name (List.mem_cons_self _ _)
        have hfresh2 : ∀ nm, some nm ∈ rest →
            destPathOf d nm ∉ btreeInsert (destPathOf d name) newFiles := by
          intro nm hm hin
          rcases (mem_btreeInsert _ _ _).mp hin with heq | hin2
          · exact hhead (some nm) hm (congrArg some (destPathOf_inj heq).symm)
          · exact hfresh nm (List.mem_cons_of_mem _ hm) hin2
        have := ih _ _ _ _ _ _ htail hfresh2 h
        rw [length_btreeInsert_of_not_mem _ _ hnotmem] at this
        omega

/-! ## Lemmas about a whole transfer pass -/

theorem transfer_files_ok_inv (st : FsState) (s d n : String) (out : PassOutput)
    (h : transfer_files st s d n = .ok out) :
    ∃ entries, st.sourceListing = some entries ∧
      transferLoop (load_transferred_files st.ledgerLines) s d entries [] [] 0
          = some (out.copies, out.newFiles, out.count) ∧
      out.st.destDirExists = true ∧
      out.st.createDirOk = st.createDirOk ∧
      out.st.sourceListing = st.sourceListing ∧
      ((0 < out.count ∧
          out.st.ledgerLines = st.ledgerLines ++ out.newFiles ∧
          out.st.logLines = st.logLines ++ [logActionLine n out.count]) ∨
        (out.count = 0 ∧
          out.st.ledgerLines = st.ledgerLines ∧
          out.st.logLines = st.logLines)) := by
  rw [transfer_files] at h
  split at h
  · split at h
    · exact PassResult.noConfusion h
    · next entries hsl =>
      split at h
      · exact PassResult.noConfusion h
      · next copies newFiles count hloop =>
        split at h
        · next hpos =>
          cases h
          exact ⟨entries, hsl, hloop, rfl, rfl, rfl, Or.inl ⟨hpos, rfl, rfl⟩⟩
        · next hpos =>
          cases h
          exact ⟨entries, hsl, hloop, rfl, rfl, rfl,
            Or.inr ⟨Nat.eq_zero_of_not_pos hpos, rfl, rfl⟩⟩
  · exact PassResult.noConfusion h

theorem transfer_files_ledger_extends (st : FsState) (s d n : String) :
    ∃ t, ledgerAfter (transfer_files st s d n) = st.ledgerLines ++ t := by
  rw [transfer_files]
  split
  · split
    · exact ⟨[], by simp [ledgerAfter]⟩
    · split
      · exact ⟨[], by simp [ledgerAfter]⟩
      · next copies newFiles count _ =>
        split
        · exact ⟨newFiles, by simp [ledgerAfter]⟩
        · exact ⟨[], by simp [ledgerAfter]⟩
  · exact ⟨[], by simp [ledgerAfter]⟩

theorem runPasses_ledger_extends :
    ∀ (inputs : List PassInput) (st : FsState),
      ∃ t, (runPasses st inputs).ledgerLines = st.ledgerLines ++ t := by
  intro inputs
  induction inputs with
  | nil => intro st; exact ⟨[], by simp [runPasses]⟩
  | cons i is ih =>
    intro st
    obtain ⟨t0, ht0⟩ := transfer_files_ledger_extends
      { st with createDirOk := i.createDirOk, sourceListing := i.sourceListing }
      i.sourceDir i.destDir i.now
    simp only [runPasses]
    rcases hres : transfer_files
        { st with createDirOk := i.createDirOk, sourceListing := i.sourceListing }
        i.sourceDir i.destDir i.now with out | st2 | st2 <;> rw [hres] at ht0
    · obtain ⟨t1, ht1⟩ := ih out.st
      refine ⟨t0 ++ t1, ?_⟩
      rw [ht1]
      have ht0b : out.st.ledgerLines = st.ledgerLines ++ t0 := ht0
      rw [ht0b, List.append_assoc]
    · obtain ⟨t1, ht1⟩ := ih st2
      refine ⟨t0 ++ t1, ?_⟩
      rw [ht1]
      have ht0b : st2.ledgerLines = st.ledgerLines ++ t0 := ht0
      rw [ht0b, List.append_assoc]
    · exact ⟨t0, ht0⟩

/-! ## Lemmas about the device locator -/

theorem buildSourceDir_of_long (tmpl l : List Char) (hlen : 18 ≤ l.length) :
    buildSourceDir tmpl l = some (candidateOf tmpl l) := by
  have h7 : 7 ≤ l.length := le_trans (by norm_num) hlen
  rw [buildSourceDir, sliceOpt, sliceOpt,
    if_pos (⟨by norm_num, h7⟩ : 4 ≤ 7 ∧ 7 ≤ l.length),
    if_pos (⟨by norm_num, hlen⟩ : 15 ≤ 18 ∧ 18 ≤ l.length)]
  rw [candidateOf]

theorem device_skips_nonmatching (pe : List Char → Bool) (nm tmpl : List Char) :
    ∀ (pre : List (List Char)), (∀ x ∈ pre, containsSeq x nm = false) →
      ∀ (tail : List (List Char)),
        device_is_connected pe nm tmpl (pre ++ tail)
          = device_is_connected pe nm tmpl tail := by
  intro pre
  induction pre with
  | nil => intro _ tail; rfl
  | cons x xs ih =>
    intro hpre tail
    have hx : containsSeq x nm = false := hpre x (List.mem_cons_self _ _)
    simp only [List.cons_append, device_is_connected, hx]
    exact ih (fun y hy => hpre y (List.mem_cons_of_mem _ hy)) tail

/-! ## Claim theorems -/

/-- Claim C1: a source directory entry whose computed destination path
(destinationDir/entryName) is already in the loaded ledger set is skipped by
the transfer pass — no copy is launched for that destination and it is not
added to the pass's new-file set.  The model consults the filesystem only
for the destination directory, never for the destination file, so this
holds regardless of whether a file currently exists at that path. -/
theorem claim_C1_ledger_skip (st : FsState) (s d n name : String) (out : PassOutput)
    (hmem : destPathOf d name ∈ st.ledgerLines)
    (hok : transfer_files st s d n = .ok out) :
    (∀ c ∈ out.copies, c.2 ≠ destPathOf d name) ∧ destPathOf d name ∉ out.newFiles := by
  obtain ⟨entries, _, hloop, _⟩ := transfer_files_ok_inv st s d n out hok
  have hprev : destPathOf d name ∈ load_transferred_files st.ledgerLines :=
    (mem_load_transferred_files _ _).mpr hmem
  obtain ⟨h1, h2⟩ := transferLoop_not_touched _ s d _ hprev entries [] [] 0 _ _ _ hloop
  refine ⟨fun c hc => ?_, fun hm => ?_⟩
  · rcases h1 c hc with hc2 | hne
    · exact absurd hc2 (List.not_mem_nil c)
    · exact hne
  · exact absurd (h2 hm) (List.not_mem_nil _)

/-- Claim C2: a transfer pass is idempotent — after a pass completes
successfully (its ledger append included), running transfer_files again on
the resulting state with the same (unchanged) source listing transfers zero
files: no copies are launched and the pass counter is 0. -/
theorem claim_C2_second_pass_idempotent (st : FsState) (s d n n2 : String)
    (out : PassOutput) (hok : transfer_files st s d n = .ok out) :
    transfer_files out.st s d n2
      = .ok { st := out.st, copies := [], newFiles := [], count := 0 } := by
  obtain ⟨outst, cps, nf, cnt⟩ := out
  obtain ⟨lg, lo, dde, cok, sl⟩ := outst
  obtain ⟨entries, hsl, hloop, hdde, _, hsl2, hcase⟩ :=
    transfer_files_ok_inv st s d n _ hok
  simp only at hsl2 hdde hloop hcase
  subst hdde
  rw [hsl] at hsl2
  have hnone : none ∉ entries := by
    intro hbad
    rw [transferLoop_none_of_bad_entry _ s d entries [] [] 0 hbad] at hloop
    exact Option.noConfusion hloop
  have hall : ∀ name, some name ∈ entries →
      destPathOf d name ∈ load_transferred_files lg := by
    intro name hn
    rw [mem_load_transferred_files]
    rcases transferLoop_covers _ s d entries [] [] 0 _ _ _ hloop name hn with hp | hnew
    · rw [mem_load_transferred_files] at hp
      rcases hcase with ⟨_, hl, _⟩ | ⟨_, hl, _⟩ <;> rw [hl]
      · exact List.mem_append_left _ hp
      · exact hp
    · rcases hcase with ⟨_, hl, _⟩ | ⟨h0, hl, _⟩
      · rw [hl]
        exact List.mem_append_right _ hnew
      · obtain ⟨_, hnf⟩ := transferLoop_count_eq _ s d entries [] [] 0 _ _ _ hloop h0
        rw [hnf] at hnew
        exact absurd hnew (List.not_mem_nil _)
  have hloop2 := transferLoop_all_skip (load_transferred_files lg) s d
    entries [] [] 0 hall hnone
  simp [transfer_files, hsl2, hloop2]

/-- Claim C3: ledger monotonicity — across any sequence of transfer passes
the ledger file's lines only ever grow by appending, so its recorded path
set is non-decreasing and no path is ever removed. -/
theorem claim_C3_ledger_monotone (st : FsState) (inputs : List PassInput) (p : String)
    (hp : p ∈ st.ledgerLines) :
    (∃ t, (runPasses st inputs).ledgerLines = st.ledgerLines ++ t) ∧
      p ∈ (runPasses st inputs).ledgerLines := by
  obtain ⟨t, ht⟩ := runPasses_ledger_extends inputs st
  refine ⟨⟨t, ht⟩, ?_⟩
  rw [ht]
  exact List.mem_append.mpr (Or.inl hp)

/-- Claim C4: on the nominal enumeration line for device name Samsung, the
fixed-offset extraction takes character positions 4-6 = 003 as the bus and
15-17 = 026 as the device token, and substituting them into the program's
template replaces __BUS__ by 003 and __DEVICE__ by 026 leaving every other
template character unchanged. -/
theorem claim_C4_offset_extraction :
    containsSeq sampleLine "Samsung".toList = true ∧
    sliceOpt sampleLine 4 7 = some "003".toList ∧
    sliceOpt sampleLine 15 18 = some "026".toList ∧
    buildSourceDir SOURCE_DIR_TEMPLATE sampleLine =
      some "/run/user/1000/gvfs/mtp:host=%5Busb%3A003%2C026%5D/Phone/DCIM/Camera".toList ∧
    device_is_connected (fun _ => true) "Samsung".toList SOURCE_DIR_TEMPLATE [sampleLine] =
      .found "/run/user/1000/gvfs/mtp:host=%5Busb%3A003%2C026%5D/Phone/DCIM/Camera".toList := by
  decide

/-- Claim C5: the locator's return contract — on a report whose first
line containing the device name is l (well-formed enough for the slices,
18 or more characters), the result is `found` of the candidate exactly when
the candidate path exists, `notFound` otherwise, independent of all lines
after l; and a report with no matching line yields `notFound`. -/
theorem claim_C5_locate_contract (pe : List Char → Bool) (nm tmpl : List Char)
    (pre post : List (List Char)) (l : List Char)
    (hpre : ∀ x ∈ pre, containsSeq x nm = false)
    (hl : containsSeq l nm = true) (hlen : 18 ≤ l.length) :
    (device_is_connected pe nm tmpl (pre ++ l :: post)
        = if pe (candidateOf tmpl l) then .found (candidateOf tmpl l) else .notFound)
      ∧ device_is_connected pe nm tmpl pre = .notFound := by
  constructor
  · rw [device_skips_nonmatching pe nm tmpl pre hpre (l :: post)]
    simp [device_is_connected, hl, buildSourceDir_of_long tmpl l hlen]
  · have h2 := device_skips_nonmatching pe nm tmpl pre hpre []
    rw [List.append_nil] at h2
    rw [h2]
    rfl

/-- Claim C6: zero-file frame condition — a pass that completes with a
counter of zero leaves both the ledger file's lines and the activity log's
lines untouched. -/
theorem claim_C6_zero_file_frame (st : FsState) (s d n : String) (out : PassOutput)
    (hok : transfer_files st s d n = .ok out) (h0 : out.count = 0) :
    out.st.ledgerLines = st.ledgerLines ∧ out.st.logLines = st.logLines := by
  obtain ⟨entries, _, _, _, _, _, hcase⟩ := transfer_files_ok_inv st s d n out hok
  rcases hcase with ⟨hpos, _, _⟩ | ⟨_, hl, hg⟩
  · omega
  · exact ⟨hl, hg⟩

/-- Claim C7 counterexample: with the destination directory absent and its
creation failing, transfer_files does not surface an Err to the
Orchestrator — the `unwrap` on `fs::create_dir` (main.rs line 106) panics
and the process crashes. -/
theorem claim_C7_counterexample :
    transfer_files stC7 "src" "dst" "2020-01-01" = .panicked stC7 ∧
    orchestrate (transfer_files stC7 "src" "dst" "2020-01-01") = .crash := by
  constructor <;> rfl

/-- Claim C7 (amended): if the destination directory is absent and creating
it fails, the pass aborts the whole process by panicking (it does not
return an error for the Orchestrator to log). -/
theorem claim_C7_amended (st : FsState) (s d n : String)
    (h1 : st.destDirExists = false) (h2 : st.createDirOk = false) :
    transfer_files st s d n = .panicked st ∧
    orchestrate (transfer_files st s d n) = .crash := by
  have hres : transfer_files st s d n = .panicked st := by
    rw [transfer_files, if_neg]
    rw [h1, h2]
    simp
  exact ⟨hres, by rw [hres]; rfl⟩

theorem claim_C7_witness :
    (stC7.destDirExists = false ∧ stC7.createDirOk = false) ∧
    (transfer_files stC7 "s" "d" "t" = .panicked stC7 ∧
      orchestrate (transfer_files stC7 "s" "d" "t") = .crash) :=
  ⟨⟨rfl, rfl⟩, claim_C7_amended stC7 "s" "d" "t" rfl rfl⟩

/-- Claim C8 counterexample: an unreadable directory entry mid-pass is not
reported as a pass-local error — the `unwrap` on the entry result
(main.rs line 112) panics and the process crashes. -/
theorem claim_C8_counterexample :
    transfer_files stC8 "src" "dst" "2020-01-01" = .panicked stC8 ∧
    orchestrate (transfer_files stC8 "src" "dst" "2020-01-01") = .crash := by
  constructor <;> rfl

/-- Claim C8 (amended): if an individual source directory entry's metadata
read yields an error mid-pass, the pass panics and aborts the process (only
the initial read_dir failure is surfaced to the Orchestrator as an Err). -/
theorem claim_C8_amended (st : FsState) (s d n : String)
    (entries : List (Option String))
    (hsl : st.sourceListing = some entries) (hbad : none ∈ entries)
    (hdir : (st.destDirExists || st.createDirOk) = true) :
    transfer_files st s d n = .panicked { st with destDirExists := true } ∧
    orchestrate (transfer_files st s d n) = .crash := by
  have hres : transfer_files st s d n = .panicked { st with destDirExists := true } := by
    rw [transfer_files, if_pos hdir]
    simp [hsl, transferLoop_none_of_bad_entry _ s d entries [] [] 0 hbad]
  exact ⟨hres, by rw [hres]; rfl⟩

theorem claim_C8_witness :
    (stC8.sourceListing = some [none] ∧ (none ∈ ([none] : List (Option String))) ∧
      (stC8.destDirExists || stC8.createDirOk) = true) ∧
    (transfer_files stC8 "s" "d" "t" = .panicked { stC8 with destDirExists := true } ∧
      orchestrate (transfer_files stC8 "s" "d" "t") = .crash) :=
  ⟨⟨rfl, List.mem_cons_self _ _, rfl⟩,
    claim_C8_amended stC8 "s" "d" "t" [none] rfl (List.mem_cons_self _ _) rfl⟩

/-- Claim C9 counterexample: a line that contains the device name but is
shorter than the fixed offsets require does not complete extraction with
garbage identifiers — the byte-range slice panics and aborts the process. -/
theorem claim_C9_counterexample :
    containsSeq shortLine "Samsung".toList = true ∧
    shortLine.length < 18 ∧
    device_is_connected (fun _ => true) "Samsung".toList SOURCE_DIR_TEMPLATE [shortLine]
      = .panicked := by
  decide

/-- Claim C9 (amended): for a matching line of at least 18 characters the
fixed-offset extraction always completes without aborting, silently
producing whatever characters sit at positions 4-6 and 15-17 (garbage on a
deviating format); a matching line shorter than 18 characters instead
panics the process. -/
theorem claim_C9_amended (pe : List Char → Bool) (nm tmpl l : List Char)
    (rest : List (List Char))
    (hl : containsSeq l nm = true) (hlen : 18 ≤ l.length) :
    buildSourceDir tmpl l = some (candidateOf tmpl l) ∧
    device_is_connected pe nm tmpl (l :: rest) ≠ .panicked := by
  refine ⟨buildSourceDir_of_long tmpl l hlen, ?_⟩
  simp only [device_is_connected, hl, buildSourceDir_of_long tmpl l hlen, if_true]
  split <;> simp

theorem claim_C9_witness :
    (containsSeq sampleLine "Samsung".toList = true ∧ 18 ≤ sampleLine.length) ∧
    (buildSourceDir SOURCE_DIR_TEMPLATE sampleLine
        = some (candidateOf SOURCE_DIR_TEMPLATE sampleLine) ∧
      device_is_connected (fun _ => false) "Samsung".toList SOURCE_DIR_TEMPLATE
        [sampleLine] ≠ .panicked) :=
  ⟨⟨by decide, by decide⟩,
    claim_C9_amended (fun _ => false) "Samsung".toList SOURCE_DIR_TEMPLATE sampleLine []
      (by decide) (by decide)⟩

/-- Claim C10: in a pass that processes at least one file from a directory
listing with pairwise-distinct entries, the lines appended to the ledger
are exactly the pass's new-file set iterated in strictly ascending
lexicographic order (hence pairwise distinct), and the count written to the
activity log equals that set's cardinality. -/
theorem claim_C10_append_discipline (st : FsState) (s d n : String) (out : PassOutput)
    (entries : List (Option String))
    (hsl : st.sourceListing = some entries)
    (hdist : entries.Pairwise (· ≠ ·))
    (hok : transfer_files st s d n = .ok out)
    (hpos : 0 < out.count) :
    out.st.ledgerLines = st.ledgerLines ++ out.newFiles ∧
    out.newFiles.Pairwise (fun a b => strLt a b = true) ∧
    out.newFiles.Pairwise (· ≠ ·) ∧
    out.count = out.newFiles.length ∧
    out.st.logLines = st.logLines ++ [logActionLine n out.newFiles.length] := by
  obtain ⟨entries2, hsl2, hloop, _, _, _, hcase⟩ := transfer_files_ok_inv st s d n out hok
  rw [hsl] at hsl2
  have hent : entries = entries2 := by injection hsl2
  subst hent
  have hsorted := transferLoop_sorted _ s d entries [] [] 0 _ _ _ List.Pairwise.nil hloop
  have hlen := transferLoop_length _ s d entries [] [] 0 _ _ _ hdist
    (fun nm _ => List.not_mem_nil _) hloop
  have hcount : out.count = out.newFiles.length := by
    simp only [List.length_nil] at hlen
    omega
  rcases hcase with ⟨_, hl, hg⟩ | ⟨h0, _, _⟩
  · refine ⟨hl, hsorted, hsorted.imp (fun hab => strLt_ne hab), hcount, ?_⟩
    rw [hg, hcount]
  · omega

theorem claim_C1_witness :
    (destPathOf "d" "a" ∈ stC1.ledgerLines ∧
      transfer_files stC1 "s" "d" "t" = .ok outC1) ∧
    ((∀ c ∈ outC1.copies, c.2 ≠ destPathOf "d" "a") ∧
      destPathOf "d" "a" ∉ outC1.newFiles) :=
  ⟨⟨by decide, by decide⟩,
    claim_C1_ledger_skip stC1 "s" "d" "t" "a" outC1 (by decide) (by decide)⟩

theorem claim_C2_witness :
    (transfer_files stC2 "s" "d" "t" = .ok outC2) ∧
    (transfer_files outC2.st "s" "d" "t2"
      = .ok { st := outC2.st, copies := [], newFiles := [], count := 0 }) :=
  ⟨by decide, claim_C2_second_pass_idempotent stC2 "s" "d" "t" "t2" outC2 (by decide)⟩

theorem claim_C3_witness :
    ("d/a" ∈ stC3.ledgerLines) ∧
    ((∃ t, (runPasses stC3 inputsC3).ledgerLines = stC3.ledgerLines ++ t) ∧
      "d/a" ∈ (runPasses stC3 inputsC3).ledgerLines) :=
  ⟨by decide, claim_C3_ledger_monotone stC3 inputsC3 "d/a" (by decide)⟩

theorem claim_C5_witness :
    ((∀ x ∈ preC5, containsSeq x "Samsung".toList = false) ∧
      containsSeq sampleLine "Samsung".toList = true ∧ 18 ≤ sampleLine.length) ∧
    ((device_is_connected (fun _ => true) "Samsung".toList SOURCE_DIR_TEMPLATE
          (preC5 ++ sampleLine :: postC5)
        = if (fun _ => true) (candidateOf SOURCE_DIR_TEMPLATE sampleLine) then
            .found (candidateOf SOURCE_DIR_TEMPLATE sampleLine)
          else .notFound)
      ∧ device_is_connected (fun _ => true) "Samsung".toList SOURCE_DIR_TEMPLATE preC5
          = .notFound) :=
  ⟨⟨by decide, by decide, by decide⟩,
    claim_C5_locate_contract (fun _ => true) "Samsung".toList SOURCE_DIR_TEMPLATE
      preC5 postC5 sampleLine (by decide) (by decide) (by decide)⟩

theorem claim_C6_witness :
    (transfer_files stC6 "s" "d" "t" = .ok outC6 ∧ outC6.count = 0) ∧
    (outC6.st.ledgerLines = stC6.ledgerLines ∧ outC6.st.logLines = stC6.logLines) :=
  ⟨⟨by decide, rfl⟩, claim_C6_zero_file_frame stC6 "s" "d" "t" outC6 (by decide) rfl⟩

theorem claim_C10_witness :
    (stC10.sourceListing = some entriesC10 ∧ entriesC10.Pairwise (· ≠ ·) ∧
      transfer_files stC10 "s" "d" "t" = .ok outC10 ∧ 0 < outC10.count) ∧
    (outC10.st.ledgerLines = stC10.ledgerLines ++ outC10.newFiles ∧
      outC10.newFiles.Pairwise (fun a b => strLt a b = true) ∧
      outC10.newFiles.Pairwise (· ≠ ·) ∧
      outC10.count = outC10.newFiles.length ∧
      outC10.st.logLines = stC10.logLines ++ [logActionLine "t" outC10.newFiles.length]) :=
  ⟨⟨rfl, by decide, by decide, by decide⟩,
    claim_C10_append_discipline stC10 "s" "d" "t" outC10 entriesC10 rfl
      (by decide) (by decide) (by decide)⟩
